import Mathlib

/-!
Verification of the peer-discovery / metrics / parsing fragment of the
kubernetes repository excerpt.  Strings are modelled as `List Char`
where character-level splitting matters, and as Lean `String` elsewhere.
Go maps are modelled as association lists, Go counters as functions
into `Nat`.
-/

set_option maxHeartbeats 1000000

namespace parse

/-- First-occurrence split: `breakAt sep s` returns `some (pre, post)`
when `s = pre ++ sep :: post` with `sep ∉ pre`, and `none` when `sep`
does not occur in `s`.  Helper used to embed Go `strings.SplitN`. -/
def breakAt (sep : Char) : List Char → Option (List Char × List Char)
  | [] => none
  | c :: rest =>
    if c = sep then some ([], rest)
    else
      match breakAt sep rest with
      | none => none
      | some (pre, post) => some (c :: pre, post)

/-- Embedding of Go `strings.SplitN(s, sep, n)` for a single-character
separator and `n ≥ 1`: at most `n` pieces, the last piece holding the
unsplit remainder verbatim. -/
def goSplitN (sep : Char) : Nat → List Char → List (List Char)
  | 0, _ => []
  | 1, s => [s]
  | n + 2, s =>
    match breakAt sep s with
    | none => [s]
    | some (pre, post) => pre :: goSplitN sep (n + 1) post

/-- Embedding of `ParseSELinuxLabel` from
`pkg/controller/volume/selinuxwarning/internal/parse/selinux_label.go`:
empty label short-circuits to four empty components; otherwise the
label is split by `strings.SplitN(label, ":", 4)` and copied into a
4-element array whose missing entries stay empty. -/
def ParseSELinuxLabel (label : List Char) :
    List Char × List Char × List Char × List Char :=
  if label = [] then ([], [], [], [])
  else
    let split := goSplitN ':' 4 label
    (split.getD 0 [], split.getD 1 [], split.getD 2 [], split.getD 3 [])

end parse

namespace ktesting

/-- Model of a Go `error` value as it flows through the ktesting error
capture: base errors from `errors.New`, the result of `errors.Join`
over a list, and the `failures` wrapper struct. -/
inductive GoError where
  | base (msg : String)
  | join (errs : List GoError)
  | failures (inner : GoError)

/-- Embedding of the `capture` struct: recorded errors and the failed
flag (the mutex only guards concurrent access and has no sequential
content). -/
structure Capture where
  errors : List GoError
  failed : Bool

/-- Embedding of `errFailedWithNoExplanation`. -/
def errFailedWithNoExplanation : GoError :=
  .base "WithError context was marked as failed without recording an error"

/-- Embedding of `TContext.finalize(err *error)`: the pointed-to prior
error value is `prev`, the result is the value stored after the call.
If the capture is failed with no recorded errors, a placeholder error is
used; if there are no errors at all the variable is left untouched;
otherwise it is overwritten with `failures` wrapping the join of all
recorded errors. -/
def finalize (cap : Capture) (prev : Option GoError) : Option GoError :=
  let errs := cap.errors
  let errs := if cap.failed && errs.isEmpty then [errFailedWithNoExplanation] else errs
  if errs.isEmpty then prev
  else some (.failures (.join errs))

/-- Embedding of the capture branch of `TContext.Error`: append a new
base error and mark the capture failed. -/
def captureError (cap : Capture) (msg : String) : Capture :=
  ⟨cap.errors ++ [.base msg], true⟩

/-- Embedding of the capture branch of `TContext.Fail`: mark the capture
failed without recording an error. -/
def captureFail (cap : Capture) : Capture :=
  ⟨cap.errors, true⟩

end ktesting

namespace metrics

def subsystem : String := "apiserver"

def statuscode : String := "code"

def group : String := "group"

def version : String := "version"

def resource : String := "resource"

def errorType : String := "type"

/-- Embedding of `ProxyErrorEndpointResolution`. -/
def ProxyErrorEndpointResolution : String := "endpoint_resolution"

/-- Embedding of `ProxyErrorTransport`. -/
def ProxyErrorTransport : String := "proxy_transport"

/-- Embedding of `DiscoveryErrorLeaseList`. -/
def DiscoveryErrorLeaseList : String := "lease_list"

/-- Embedding of `DiscoveryErrorHostPortResolution`. -/
def DiscoveryErrorHostPortResolution : String := "hostport_resolution"

/-- Embedding of `DiscoveryErrorFetch`. -/
def DiscoveryErrorFetch : String := "fetch_discovery"

/-- The declaration-time data of a `metrics.NewCounterVec` call:
subsystem, name and label names. -/
structure CounterVecOpts where
  subsystem : String
  name : String
  labels : List String
deriving DecidableEq

/-- Embedding of the `peerProxiedRequestsTotal` counter vector declaration. -/
def peerProxiedRequestsTotal : CounterVecOpts :=
  ⟨subsystem, "rerouted_request_total", [statuscode, group, version, resource]⟩

/-- Embedding of the `peerProxyErrorsTotal` counter vector declaration. -/
def peerProxyErrorsTotal : CounterVecOpts :=
  ⟨subsystem, "peer_proxy_errors_total", [errorType, group, version, resource]⟩

/-- Embedding of the `peerDiscoverySyncErrorsTotal` counter vector declaration. -/
def peerDiscoverySyncErrorsTotal : CounterVecOpts :=
  ⟨subsystem, "peer_discovery_sync_errors_total", [errorType]⟩

/-- A Prometheus counter vector gets its exposed name as
`subsystem _ name`. -/
def fullName (c : CounterVecOpts) : String := c.subsystem ++ "_" ++ c.name

/-- The numeric state of the three counter vectors of the metrics
module: each maps a label-value tuple to the current count. -/
structure MetricsState where
  rerouted : String × String × String × String → Nat
  proxyErrors : String × String × String × String → Nat
  syncErrors : String → Nat

/-- All counters start at zero. -/
def initMetrics : MetricsState := ⟨fun _ => 0, fun _ => 0, fun _ => 0⟩

/-- Embedding of `IncPeerProxiedRequest`: `.WithLabelValues(status, g, v, r).Add(1)`. -/
def IncPeerProxiedRequest (st : MetricsState) (status g v r : String) : MetricsState :=
  { st with rerouted := fun l =>
      if l = (status, g, v, r) then st.rerouted l + 1 else st.rerouted l }

/-- Embedding of `IncPeerProxyError`: `.WithLabelValues(e, g, v, r).Add(1)`. -/
def IncPeerProxyError (st : MetricsState) (e g v r : String) : MetricsState :=
  { st with proxyErrors := fun l =>
      if l = (e, g, v, r) then st.proxyErrors l + 1 else st.proxyErrors l }

/-- Embedding of `IncPeerDiscoverySyncError`: `.WithLabelValues(e).Add(1)`. -/
def IncPeerDiscoverySyncError (st : MetricsState) (e : String) : MetricsState :=
  { st with syncErrors := fun l =>
      if l = e then st.syncErrors l + 1 else st.syncErrors l }

/-- The metrics package globals: the `sync.Once` guard and the legacy
registry, modelled as the ordered list of registered collector names. -/
structure RegistrarState where
  onceDone : Bool
  registered : List String
deriving DecidableEq

/-- Process start: nothing registered, `sync.Once` not fired. -/
def initialRegistrar : RegistrarState := ⟨false, []⟩

/-- Embedding of `Register`: under `registerMetricsOnce.Do`, register the
three counter vectors with the legacy registry; on later calls the
`sync.Once` guard makes the body a no-op. -/
def Register (st : RegistrarState) : RegistrarState :=
  if st.onceDone then st
  else
    { onceDone := true,
      registered := st.registered ++
        [fullName peerProxiedRequestsTotal,
         fullName peerProxyErrorsTotal,
         fullName peerDiscoverySyncErrorsTotal] }

end metrics

namespace peerproxy

/-- Embedding of `schema.GroupVersionResource` (declared outside this
excerpt; shape taken from its use in the test's cache entries). -/
structure GroupVersionResource where
  group : String
  version : String
  resource : String
deriving DecidableEq

/-- Embedding of `apidiscoveryv2.APIResourceDiscovery`, restricted to the
field the peer discovery cache consumes. -/
structure APIResourceDiscovery where
  resource : String
deriving DecidableEq

/-- Embedding of `apidiscoveryv2.APIVersionDiscovery`. -/
structure APIVersionDiscovery where
  version : String
  resources : List APIResourceDiscovery
deriving DecidableEq

/-- Embedding of `apidiscoveryv2.APIGroupDiscovery`: the group name
(`ObjectMeta.Name`) and its versions. -/
structure APIGroupDiscovery where
  name : String
  versions : List APIVersionDiscovery
deriving DecidableEq

/-- Embedding of `PeerDiscoveryCacheEntry` as exercised by the test:
the flattened GVR set (Go `map[GroupVersionResource]bool`, modelled as a
duplicate-free list) and the raw group-discovery documents. -/
structure PeerDiscoveryCacheEntry where
  GVRs : List GroupVersionResource
  GroupDiscovery : List APIGroupDiscovery
deriving DecidableEq

/-- Modelled from the spec: "GVRs is always the flattened, de-duplicated
projection of GroupDiscovery" — the projection flattens every
group/version/resource triple and removes duplicates. -/
def flattenGVRs (docs : List APIGroupDiscovery) : List GroupVersionResource :=
  (docs.flatMap fun g => g.versions.flatMap fun v =>
    v.resources.map fun r => ⟨g.name, v.version, r.resource⟩).dedup

/-- Build the cache entry recorded for a successfully fetched document. -/
def entryFor (docs : List APIGroupDiscovery) : PeerDiscoveryCacheEntry :=
  ⟨flattenGVRs docs, docs⟩

/-- Embedding of `coordinationv1.Lease`, restricted to the fields the
sync uses: name, holder identity, labels. -/
structure Lease where
  name : String
  holderIdentity : String
  labels : List (String × String)
deriving DecidableEq

/-- A `key=value` label selector such as `apiserver-identity=testserver`. -/
structure LabelSelector where
  key : String
  value : String
deriving DecidableEq

/-- A lease matches the selector when it carries the selected label. -/
def leaseMatches (sel : LabelSelector) (l : Lease) : Bool :=
  l.labels.any fun p => p.1 == sel.key && p.2 == sel.value

/-- The response of a peer server to a GET on one path: HTTP status and,
when the body decodes as an aggregated discovery document, that
document. -/
structure HTTPResponse where
  status : Nat
  body : Option (List APIGroupDiscovery)

/-- The external collaborators of one sync tick: the label selector, the
informer's lease snapshot (with a lease-list failure injection flag),
the endpoint reconciler's table, and each endpoint's HTTP behaviour. -/
structure PeerEnv where
  selector : LabelSelector
  leases : List Lease
  listFails : Bool
  endpoints : List (String × String)
  servers : String → String → HTTPResponse

/-- Modelled from the spec: "List leases from the local informer store
filtered by label selector" (`RunPeerDiscoveryCacheSync` step 1; the
implementation is not part of this excerpt, only its test is). -/
def matchingLeases (env : PeerEnv) : List Lease :=
  env.leases.filter (leaseMatches env.selector)

/-- Embedding of the reconciler's `GetEndpoint(serverID)` as the test's
`fakeReconciler` implements it: a table lookup that fails when no
endpoint was registered for the identity. -/
def getEndpoint (env : PeerEnv) (serverID : String) : Option String :=
  (env.endpoints.find? fun p => p.1 == serverID).map Prod.snd

/-- One GET against a discovery path: succeeds when the status is 200
and the body decodes as an aggregated discovery document. -/
def tryPath (server : String → HTTPResponse) (path : String) :
    Option (List APIGroupDiscovery) :=
  let resp := server path
  if resp.status == 200 then resp.body else none

/-- Modelled from the spec: the Discovery Fetcher "issues GET to `/apis`
(and falls back to `/api` for legacy core-group discovery)"; the
implementation is not part of this excerpt.  Returns the fetched
document (when either path succeeded) together with the number of failed
path fetches, each of which the sync records as a `fetch_discovery`
error — the test expects the counter at 2 after one sync against a
server answering 500 on every path. -/
def fetchDiscovery (server : String → HTTPResponse) :
    Option (List APIGroupDiscovery) × Nat :=
  match tryPath server "/apis" with
  | some docs => (some docs, 0)
  | none =>
    match tryPath server "/api" with
    | some docs => (some docs, 1)
    | none => (none, 2)

/-- The peer discovery cache: lease name to entry, as an association list. -/
abbrev PeerCache := List (String × PeerDiscoveryCacheEntry)

/-- Read one cache key. -/
def lookupEntry (c : PeerCache) (name : String) : Option PeerDiscoveryCacheEntry :=
  (c.find? fun p => p.1 == name).map Prod.snd

/-- Atomic per-key replace-or-append, the cache update of a successful
fetch. -/
def upsert (c : PeerCache) (name : String) (e : PeerDiscoveryCacheEntry) :
    PeerCache :=
  match c with
  | [] => [(name, e)]
  | p :: rest => if p.1 = name then (name, e) :: rest else p :: upsert rest name e

/-- The mutable state one sync tick acts on: the peer discovery cache
and the metrics counters. -/
structure SyncState where
  cache : PeerCache
  metrics : metrics.MetricsState

/-- Record `n` consecutive `fetch_discovery` sync errors. -/
def incFetchErrors (m : metrics.MetricsState) : Nat → metrics.MetricsState
  | 0 => m
  | n + 1 =>
    metrics.IncPeerDiscoverySyncError (incFetchErrors m n) metrics.DiscoveryErrorFetch

/-- Modelled from the spec: the per-lease unit of `syncPeerDiscoveryCache`
(steps 2-4 of the Sync Loop; the implementation is not part of this
excerpt).  Endpoint-resolution failure records `hostport_resolution`
and leaves the cache alone; fetch failures record `fetch_discovery`
once per failed path; success upserts the entry built from the parsed
document. -/
def syncOneLease (env : PeerEnv) (st : SyncState) (l : Lease) : SyncState :=
  match getEndpoint env l.name with
  | none =>
    { st with metrics :=
        (metrics.IncPeerDiscoverySyncError st.metrics
          metrics.DiscoveryErrorHostPortResolution) }
  | some ep =>
    let fr := fetchDiscovery (env.servers ep)
    let m := incFetchErrors st.metrics fr.2
    match fr.1 with
    | some docs => ⟨upsert st.cache l.name (entryFor docs), m⟩
    | none => ⟨st.cache, m⟩

/-- Modelled from the spec: one full tick of `syncPeerDiscoveryCache`
(the synchronous unit the test calls directly; the implementation is
not part of this excerpt).  A lease-list failure records `lease_list`
and aborts the tick; otherwise every matching lease is processed in
order, one lease's failure never stopping the others. -/
def syncPeerDiscoveryCache (env : PeerEnv) (st : SyncState) : SyncState :=
  if env.listFails then
    { st with metrics :=
        (metrics.IncPeerDiscoverySyncError st.metrics
          metrics.DiscoveryErrorLeaseList) }
  else
    (matchingLeases env).foldl (syncOneLease env) st

/-- Modelled from the spec: the lease delete handler (§4.2) — "when a
lease disappears from the informer (delete event), remove the
corresponding cache entry"; the implementation is not part of this
excerpt. -/
def onLeaseDelete (st : SyncState) (name : String) : SyncState :=
  { st with cache := st.cache.filter fun p => p.1 != name }

/-- Drop the locally-served (excluded) GVRs from one group-discovery
document. -/
def filterDoc (excl : List GroupVersionResource) (g : APIGroupDiscovery) :
    APIGroupDiscovery :=
  { g with versions := g.versions.map fun v =>
      { v with resources := v.resources.filter fun r =>
          !(excl.contains ⟨g.name, v.version, r.resource⟩) } }

/-- Refilter one entry against the exclusion set, recomputing the GVR
projection so the entry invariant is maintained. -/
def refilterEntry (excl : List GroupVersionResource)
    (e : PeerDiscoveryCacheEntry) : PeerDiscoveryCacheEntry :=
  let docs := e.GroupDiscovery.map (filterDoc excl)
  ⟨flattenGVRs docs, docs⟩

/-- Modelled from the spec: `GetFilteredPeerDiscoveryCache` — the
refiltered snapshot of the cache with locally served GVRs excluded
(§4.3; the implementation is not part of this excerpt, only its test
is).  The refilter loop recomputes this wholesale; sequentially the
returned snapshot is the refiltered image of the current cache. -/
def GetFilteredPeerDiscoveryCache (excl : List GroupVersionResource)
    (c : PeerCache) : PeerCache :=
  c.map fun p => (p.1, refilterEntry excl p.2)

/-- The entry one steady-state sync records for a lease, when its
endpoint resolves and one of the discovery paths succeeds. -/
def peerEntry (env : PeerEnv) (l : Lease) : Option PeerDiscoveryCacheEntry :=
  match getEndpoint env l.name with
  | none => none
  | some ep => (fetchDiscovery (env.servers ep)).1.map entryFor

/-- Total version of `peerEntry` for use under an `isSome` hypothesis. -/
def entryOf (env : PeerEnv) (l : Lease) : PeerDiscoveryCacheEntry :=
  (peerEntry env l).getD ⟨[], []⟩

/-- The spec's entry invariant: the GVR field is the flattened,
de-duplicated projection of the raw documents. -/
def entryConsistent (e : PeerDiscoveryCacheEntry) : Prop :=
  e.GVRs = flattenGVRs e.GroupDiscovery

/-- The discovery document served by the test's TLS servers: group
`testgroup`, version `v1`, resource `testresources`. -/
def testDoc : APIGroupDiscovery := ⟨"testgroup", [⟨"v1", [⟨"testresources"⟩]⟩]⟩

/-- The metrics test's "fetch discovery error" scenario: one matching
lease whose registered endpoint answers HTTP 500 on every path. -/
def envFail : PeerEnv :=
  { selector := ⟨"apiserver-identity", "testserver"⟩,
    leases := [⟨"remote-fetch-error", "holder-fetch-error",
      [("apiserver-identity", "testserver")]⟩],
    listFails := false,
    endpoints := [("remote-fetch-error", "127.0.0.1:3000")],
    servers := fun _ _ => ⟨500, none⟩ }

/-- A sync scenario with two matching leases: the first has no
registered endpoint (resolution fails), the second resolves and serves
the test discovery document. -/
def envMixed : PeerEnv :=
  { selector := ⟨"apiserver-identity", "testserver"⟩,
    leases := [⟨"remote-resolution-error", "holder-error",
        [("apiserver-identity", "testserver")]⟩,
      ⟨"remote-1", "holder-1", [("apiserver-identity", "testserver")]⟩],
    listFails := false,
    endpoints := [("remote-1", "127.0.0.1:6443")],
    servers := fun ep path =>
      if ep == "127.0.0.1:6443" && (path == "/apis" || path == "/api")
      then ⟨200, some [testDoc]⟩ else ⟨404, none⟩ }

/-- A peer that serves discovery only on the legacy core-group path. -/
def legacyOnlyServer : String → HTTPResponse :=
  fun p => if p == "/api" then ⟨200, some [testDoc]⟩ else ⟨404, none⟩

/-- The steady-state single-lease scenario of the cache sync test. -/
def envSteady : PeerEnv :=
  { selector := ⟨"apiserver-identity", "testserver"⟩,
    leases := [⟨"remote-1", "holder-1", [("apiserver-identity", "testserver")]⟩],
    listFails := false,
    endpoints := [("remote-1", "127.0.0.1:6443")],
    servers := fun ep path =>
      if ep == "127.0.0.1:6443" && (path == "/apis" || path == "/api")
      then ⟨200, some [testDoc]⟩ else ⟨404, none⟩ }

end peerproxy

namespace parse

theorem breakAt_append_cons (sep : Char) (u rest : List Char) (h : sep ∉ u) :
    breakAt sep (u ++ sep :: rest) = some (u, rest) := by
  induction u with
  | nil => simp [breakAt]
  | cons c u ih =>
    have hc : c ≠ sep := fun hcs => h (hcs ▸ List.mem_cons_self c u)
    have hu : sep ∉ u := fun hm => h (List.mem_cons_of_mem c hm)
    simp [breakAt, hc, ih hu]

theorem breakAt_eq_none (sep : Char) (s : List Char) (h : sep ∉ s) :
    breakAt sep s = none := by
  induction s with
  | nil => rfl
  | cons c s ih =>
    have hc : c ≠ sep := fun hcs => h (hcs ▸ List.mem_cons_self c s)
    have hs : sep ∉ s := fun hm => h (List.mem_cons_of_mem c hm)
    simp [breakAt, hc, ih hs]

theorem goSplitN_step (sep : Char) (n : Nat) (s : List Char) :
    goSplitN sep (n + 2) s =
      match breakAt sep s with
      | none => [s]
      | some (pre, post) => pre :: goSplitN sep (n + 1) post := rfl

theorem goSplitN_step_none (sep : Char) (n : Nat) (s : List Char)
    (h : breakAt sep s = none) : goSplitN sep (n + 2) s = [s] := by
  rw [goSplitN_step, h]

theorem goSplitN_step_some (sep : Char) (n : Nat) (s pre post : List Char)
    (h : breakAt sep s = some (pre, post)) :
    goSplitN sep (n + 2) s = pre :: goSplitN sep (n + 1) post := by
  rw [goSplitN_step, h]

/-- Claim C9: `ParseSELinuxLabel` is total with exactly 4 string components
(by its result type); the empty string maps to four empty strings, a
colon-free input occupies only the first component, and in general the
input is split on at most the first three colons with the entire
remainder — including any further colons — kept verbatim as the fourth
(level) component, absent components being empty. -/
theorem ParseSELinuxLabel_characterization :
    (ParseSELinuxLabel [] = ([], [], [], [])) ∧
    (∀ u : List Char, u ≠ [] → ':' ∉ u →
      ParseSELinuxLabel u = (u, [], [], [])) ∧
    (∀ u r : List Char, ':' ∉ u → ':' ∉ r →
      ParseSELinuxLabel (u ++ ':' :: r) = (u, r, [], [])) ∧
    (∀ u r t : List Char, ':' ∉ u → ':' ∉ r → ':' ∉ t →
      ParseSELinuxLabel (u ++ ':' :: (r ++ ':' :: t)) = (u, r, t, [])) ∧
    (∀ u r t lv : List Char, ':' ∉ u → ':' ∉ r → ':' ∉ t →
      ParseSELinuxLabel (u ++ ':' :: (r ++ ':' :: (t ++ ':' :: lv))) = (u, r, t, lv)) := by
  refine ⟨rfl, ?_, ?_, ?_, ?_⟩
  · intro u hne hu
    have h1 : goSplitN ':' 4 u = [u] :=
      goSplitN_step_none ':' 2 u (breakAt_eq_none ':' u hu)
    simp [ParseSELinuxLabel, hne, h1]
  · intro u r hu hr
    have h1 : goSplitN ':' 4 (u ++ ':' :: r) = [u, r] := by
      rw [goSplitN_step_some ':' 2 _ u r (breakAt_append_cons ':' u r hu),
        goSplitN_step_none ':' 1 r (breakAt_eq_none ':' r hr)]
    simp [ParseSELinuxLabel, h1]
  · intro u r t hu hr ht
    have h1 : goSplitN ':' 4 (u ++ ':' :: (r ++ ':' :: t)) = [u, r, t] := by
      rw [goSplitN_step_some ':' 2 _ u (r ++ ':' :: t)
          (breakAt_append_cons ':' u (r ++ ':' :: t) hu),
        goSplitN_step_some ':' 1 _ r t (breakAt_append_cons ':' r t hr),
        goSplitN_step_none ':' 0 t (breakAt_eq_none ':' t ht)]
    simp [ParseSELinuxLabel, h1]
  · intro u r t lv hu hr ht
    have h1 : goSplitN ':' 4 (u ++ ':' :: (r ++ ':' :: (t ++ ':' :: lv))) = [u, r, t, lv] := by
      rw [goSplitN_step_some ':' 2 _ u (r ++ ':' :: (t ++ ':' :: lv))
          (breakAt_append_cons ':' u (r ++ ':' :: (t ++ ':' :: lv)) hu),
        goSplitN_step_some ':' 1 _ r (t ++ ':' :: lv)
          (breakAt_append_cons ':' r (t ++ ':' :: lv) hr),
        goSplitN_step_some ':' 0 _ t lv (breakAt_append_cons ':' t lv ht)]
      simp [goSplitN]
    simp [ParseSELinuxLabel, h1]

/-- Witness for Claim C9 at the "five colons" test vector `":::::"`:
the first three components are empty and the level keeps `"::"` verbatim. -/
theorem ParseSELinuxLabel_characterization_witness :
    ParseSELinuxLabel [':', ':', ':', ':', ':'] = ([], [], [], [':', ':']) := by
  have h := ParseSELinuxLabel_characterization.2.2.2.2 [] [] [] [':', ':']
    (by decide) (by decide) (by decide)
  simpa using h

end parse

namespace ktesting

/-- Claim C10: with a fresh capture (as installed by `WithError`) and no
recorded failures, `finalize` leaves the pointed-to error unchanged; with
one or more recorded failures it overwrites the variable with a value
wrapping all recorded errors joined together; a capture marked failed
with no recorded error yields the non-nil placeholder error. -/
theorem finalize_spec :
    (∀ prev, finalize ⟨[], false⟩ prev = prev) ∧
    (∀ errs prev, errs ≠ [] →
      finalize ⟨errs, true⟩ prev = some (.failures (.join errs))) ∧
    (∀ prev, finalize ⟨[], true⟩ prev =
        some (.failures (.join [errFailedWithNoExplanation])) ∧
      (finalize ⟨[], true⟩ prev).isSome = true) := by
  refine ⟨fun prev => rfl, fun errs prev h => ?_, fun prev => ⟨rfl, rfl⟩⟩
  have h2 : errs.isEmpty = false := by
    cases errs with
    | nil => exact absurd rfl h
    | cons e es => rfl
  simp [finalize, h2]

/-- Witness for Claim C10: a pre-existing error survives a clean capture;
two recorded errors get joined and wrapped; the failed-with-no-error
capture produces the placeholder. -/
theorem finalize_spec_witness :
    finalize ⟨[], false⟩ (some (.base "prior")) = some (.base "prior") ∧
    finalize ⟨[GoError.base "e1", GoError.base "e2"], true⟩ (some (.base "prior")) =
      some (.failures (.join [.base "e1", .base "e2"])) ∧
    (finalize ⟨[], true⟩ none).isSome = true := by
  refine ⟨finalize_spec.1 _, finalize_spec.2.1 _ _ ?_, (finalize_spec.2.2 none).2⟩
  simp

end ktesting

namespace metrics

theorem IncPeerDiscoverySyncError_at_self (st : MetricsState) (e : String) :
    (IncPeerDiscoverySyncError st e).syncErrors e = st.syncErrors e + 1 := by
  simp [IncPeerDiscoverySyncError]

theorem IncPeerDiscoverySyncError_at_ne (st : MetricsState) (e l : String)
    (h : l ≠ e) :
    (IncPeerDiscoverySyncError st e).syncErrors l = st.syncErrors l := by
  simp [IncPeerDiscoverySyncError, h]

/-- Claim C6: the metrics module exposes exactly the three counter
vectors `apiserver_peer_discovery_sync_errors_total` (labelled by
`type`, with the module's type constants `lease_list`,
`hostport_resolution`, `fetch_discovery`),
`apiserver_peer_proxy_errors_total` (labelled by
`type, group, version, resource`, with type constants
`endpoint_resolution` and `proxy_transport`), and
`apiserver_rerouted_request_total` (labelled by
`code, group, version, resource`); each increment operation adds
exactly 1 to the counter selected by its label arguments and leaves
every other label combination unchanged. -/
theorem metrics_counters_spec :
    fullName peerDiscoverySyncErrorsTotal
      = "apiserver_peer_discovery_sync_errors_total" ∧
    peerDiscoverySyncErrorsTotal.labels = ["type"] ∧
    [DiscoveryErrorLeaseList, DiscoveryErrorHostPortResolution, DiscoveryErrorFetch]
      = ["lease_list", "hostport_resolution", "fetch_discovery"] ∧
    fullName peerProxyErrorsTotal = "apiserver_peer_proxy_errors_total" ∧
    peerProxyErrorsTotal.labels = ["type", "group", "version", "resource"] ∧
    [ProxyErrorEndpointResolution, ProxyErrorTransport]
      = ["endpoint_resolution", "proxy_transport"] ∧
    fullName peerProxiedRequestsTotal = "apiserver_rerouted_request_total" ∧
    peerProxiedRequestsTotal.labels = ["code", "group", "version", "resource"] ∧
    (∀ (st : MetricsState) (s g v r : String),
      (IncPeerProxiedRequest st s g v r).rerouted (s, g, v, r)
          = st.rerouted (s, g, v, r) + 1 ∧
      ∀ lb, lb ≠ (s, g, v, r) →
        (IncPeerProxiedRequest st s g v r).rerouted lb = st.rerouted lb) ∧
    (∀ (st : MetricsState) (e g v r : String),
      (IncPeerProxyError st e g v r).proxyErrors (e, g, v, r)
          = st.proxyErrors (e, g, v, r) + 1 ∧
      ∀ lb, lb ≠ (e, g, v, r) →
        (IncPeerProxyError st e g v r).proxyErrors lb = st.proxyErrors lb) ∧
    (∀ (st : MetricsState) (e : String),
      (IncPeerDiscoverySyncError st e).syncErrors e = st.syncErrors e + 1 ∧
      ∀ lb, lb ≠ e →
        (IncPeerDiscoverySyncError st e).syncErrors lb = st.syncErrors lb) := by
  refine ⟨rfl, rfl, rfl, rfl, rfl, rfl, rfl, rfl, ?_, ?_, ?_⟩
  · intro st s g v r
    exact ⟨by simp [IncPeerProxiedRequest],
      fun lb hlb => by simp [IncPeerProxiedRequest, hlb]⟩
  · intro st e g v r
    exact ⟨by simp [IncPeerProxyError],
      fun lb hlb => by simp [IncPeerProxyError, hlb]⟩
  · intro st e
    exact ⟨IncPeerDiscoverySyncError_at_self st e,
      fun lb hlb => IncPeerDiscoverySyncError_at_ne st e lb hlb⟩

/-- Witness for Claim C6: incrementing the discovery-sync error counter
at `fetch_discovery` from zero yields 1 there and leaves `lease_list`
at 0. -/
theorem metrics_counters_spec_witness :
    (IncPeerDiscoverySyncError initMetrics DiscoveryErrorFetch).syncErrors
      DiscoveryErrorFetch = 1 ∧
    (IncPeerDiscoverySyncError initMetrics DiscoveryErrorFetch).syncErrors
      DiscoveryErrorLeaseList = 0 := by
  have h := metrics_counters_spec.2.2.2.2.2.2.2.2.2.2 initMetrics DiscoveryErrorFetch
  exact ⟨by simpa using h.1,
    by simpa using h.2 DiscoveryErrorLeaseList (by decide)⟩

/-- Claim C7: `Register` is idempotent — any positive number of calls
starting from process start leaves the registrar in the state of a
single call, with each of the three counter vectors registered with the
legacy registry exactly once. -/
theorem Register_idempotent :
    ∀ n : Nat, 1 ≤ n →
      Register^[n] initialRegistrar = Register initialRegistrar ∧
      ((Register^[n] initialRegistrar).registered.count
          (fullName peerProxiedRequestsTotal) = 1 ∧
        (Register^[n] initialRegistrar).registered.count
          (fullName peerProxyErrorsTotal) = 1 ∧
        (Register^[n] initialRegistrar).registered.count
          (fullName peerDiscoverySyncErrorsTotal) = 1) := by
  have hfix : Register (Register initialRegistrar) = Register initialRegistrar := rfl
  have hiter : ∀ n, 1 ≤ n →
      Register^[n] initialRegistrar = Register initialRegistrar := by
    intro n hn
    induction n with
    | zero => omega
    | succ k ih =>
      rcases Nat.lt_or_ge k 1 with hk | hk
      · have hk0 : k = 0 := by omega
        subst hk0
        rfl
      · rw [Function.iterate_succ_apply', ih hk, hfix]
  intro n hn
  refine ⟨hiter n hn, ?_⟩
  rw [hiter n hn]
  exact ⟨by decide, by decide, by decide⟩

/-- Witness for Claim C7 at two consecutive `Register` calls. -/
theorem Register_idempotent_witness :
    Register^[2] initialRegistrar = Register initialRegistrar ∧
    ((Register^[2] initialRegistrar).registered.count
        (fullName peerProxiedRequestsTotal) = 1 ∧
      (Register^[2] initialRegistrar).registered.count
        (fullName peerProxyErrorsTotal) = 1 ∧
      (Register^[2] initialRegistrar).registered.count
        (fullName peerDiscoverySyncErrorsTotal) = 1) :=
  Register_idempotent 2 (by decide)

end metrics

namespace peerproxy

theorem lookupEntry_nil (name : String) : lookupEntry [] name = none := rfl

theorem lookupEntry_cons (p : String × PeerDiscoveryCacheEntry)
    (c : PeerCache) (name : String) :
    lookupEntry (p :: c) name =
      if p.1 = name then some p.2 else lookupEntry c name := by
  by_cases h : p.1 = name <;> simp [lookupEntry, List.find?_cons, h]

theorem lookupEntry_filter_ne (c : PeerCache) (name : String) :
    lookupEntry (c.filter fun p => p.1 != name) name = none := by
  induction c with
  | nil => rfl
  | cons p c ih =>
    by_cases h : p.1 = name
    · simpa [List.filter_cons, h] using ih
    · simpa [List.filter_cons, h, lookupEntry_cons] using ih

theorem lookupEntry_map_refilter (excl : List GroupVersionResource)
    (c : PeerCache) (name : String) :
    lookupEntry (GetFilteredPeerDiscoveryCache excl c) name =
      (lookupEntry c name).map (refilterEntry excl) := by
  induction c with
  | nil => rfl
  | cons p c ih =>
    by_cases h : p.1 = name
    · simp [GetFilteredPeerDiscoveryCache, lookupEntry_cons, h]
    · simpa [GetFilteredPeerDiscoveryCache, lookupEntry_cons, h] using ih

/-- Claim C2: after a lease is deleted and the delete event is
processed, any subsequent read for that lease name — on the raw cache or
through `GetFilteredPeerDiscoveryCache` — returns absent, not the last
successfully cached value. -/
theorem delete_removes_entry (st : SyncState) (name : String)
    (excl : List GroupVersionResource) :
    lookupEntry (onLeaseDelete st name).cache name = none ∧
    lookupEntry
      (GetFilteredPeerDiscoveryCache excl (onLeaseDelete st name).cache) name
      = none := by
  have h1 : lookupEntry (onLeaseDelete st name).cache name = none :=
    lookupEntry_filter_ne st.cache name
  refine ⟨h1, ?_⟩
  rw [lookupEntry_map_refilter, h1]
  rfl

theorem lookupEntry_upsert_self (c : PeerCache) (n : String)
    (e : PeerDiscoveryCacheEntry) : lookupEntry (upsert c n e) n = some e := by
  induction c with
  | nil => simp [upsert, lookupEntry_cons]
  | cons p rest ih =>
    by_cases h : p.1 = n
    · simp [upsert, h, lookupEntry_cons]
    · simpa [upsert, h, lookupEntry_cons] using ih

theorem lookupEntry_upsert_ne (c : PeerCache) (n m : String)
    (e : PeerDiscoveryCacheEntry) (h : m ≠ n) :
    lookupEntry (upsert c n e) m = lookupEntry c m := by
  have hnm : ¬ n = m := fun hn => h hn.symm
  induction c with
  | nil => simp [upsert, lookupEntry_cons, lookupEntry_nil, hnm]
  | cons p rest ih =>
    by_cases hp : p.1 = n
    · have hpm : ¬ p.1 = m := fun hm => hnm (hp.symm.trans hm)
      rw [show upsert (p :: rest) n e = (n, e) :: rest from by simp [upsert, hp],
        lookupEntry_cons, lookupEntry_cons, if_neg hnm, if_neg hpm]
    · rw [show upsert (p :: rest) n e = p :: upsert rest n e from by simp [upsert, hp],
        lookupEntry_cons, lookupEntry_cons, ih]

theorem upsert_of_forall_ne (c : PeerCache) (n : String)
    (e : PeerDiscoveryCacheEntry) (h : ∀ p ∈ c, p.1 ≠ n) :
    upsert c n e = c ++ [(n, e)] := by
  induction c with
  | nil => rfl
  | cons p rest ih =>
    have hp : p.1 ≠ n := h p (List.mem_cons_self p rest)
    have hrest : ∀ q ∈ rest, q.1 ≠ n := fun q hq => h q (List.mem_cons_of_mem p hq)
    simp [upsert, hp, ih hrest]

theorem mem_upsert (c : PeerCache) (n : String) (e : PeerDiscoveryCacheEntry)
    (q : String × PeerDiscoveryCacheEntry) (hq : q ∈ upsert c n e) :
    q ∈ c ∨ q = (n, e) := by
  induction c with
  | nil => simpa [upsert] using hq
  | cons p rest ih =>
    by_cases hp : p.1 = n
    · simp only [upsert, hp, if_pos] at hq
      rcases List.mem_cons.mp hq with h1 | h1
      · exact Or.inr h1
      · exact Or.inl (List.mem_cons_of_mem p h1)
    · simp only [upsert, hp, if_neg, not_false_iff] at hq
      rcases List.mem_cons.mp hq with h1 | h1
      · exact Or.inl (h1 ▸ List.mem_cons_self p rest)
      · rcases ih h1 with h2 | h2
        · exact Or.inl (List.mem_cons_of_mem p h2)
        · exact Or.inr h2

theorem incFetchErrors_at_fetch (m : metrics.MetricsState) (k : Nat) :
    (incFetchErrors m k).syncErrors metrics.DiscoveryErrorFetch =
      m.syncErrors metrics.DiscoveryErrorFetch + k := by
  induction k with
  | zero => rfl
  | succ k ih =>
    simp only [incFetchErrors, metrics.IncPeerDiscoverySyncError_at_self, ih]
    omega

theorem incFetchErrors_at_ne (m : metrics.MetricsState) (k : Nat) (lbl : String)
    (h : lbl ≠ metrics.DiscoveryErrorFetch) :
    (incFetchErrors m k).syncErrors lbl = m.syncErrors lbl := by
  induction k with
  | zero => rfl
  | succ k ih =>
    simp only [incFetchErrors, metrics.IncPeerDiscoverySyncError_at_ne _ _ _ h, ih]

/-- Counterexample to Claim C3 as stated: a single failing sync against
a peer answering HTTP 500 on every fetch leaves the
`fetch_discovery` counter at 2, not 1 — the behaviour the test
`TestPeerDiscoveryMetrics` pins (counter sample 2 after one direct
`syncPeerDiscoveryCache` call), because both discovery paths fail and
each failed path records one error. -/
theorem one_failing_sync_yields_two :
    (syncPeerDiscoveryCache envFail ⟨[], metrics.initMetrics⟩).metrics.syncErrors
      metrics.DiscoveryErrorFetch = 2 ∧ (2 : Nat) ≠ 1 := ⟨rfl, by decide⟩

/-- Claim C3 (amended): when a peer's discovery endpoint returns HTTP
500 on every fetch, each sync increments
`apiserver_peer_discovery_sync_errors_total` at `fetch_discovery` by 2
— one per failed discovery path (`/apis`, then the `/api` fallback) —
and repeated failures accumulate monotonically: one failing sync yields
counter value 2, two consecutive failing syncs yield 4. -/
theorem fetch_error_counter_accumulation (env : PeerEnv) (l : Lease) (ep : String)
    (hlist : env.listFails = false)
    (hm : matchingLeases env = [l])
    (hep : getEndpoint env l.name = some ep)
    (h500 : ∀ p, (env.servers ep p).status = 500) :
    (∀ st : SyncState,
      (syncPeerDiscoveryCache env st).metrics.syncErrors metrics.DiscoveryErrorFetch
        = st.metrics.syncErrors metrics.DiscoveryErrorFetch + 2) ∧
    (∀ c0 : PeerCache,
      (syncPeerDiscoveryCache env ⟨c0, metrics.initMetrics⟩).metrics.syncErrors
          metrics.DiscoveryErrorFetch = 2 ∧
      (syncPeerDiscoveryCache env
          (syncPeerDiscoveryCache env ⟨c0, metrics.initMetrics⟩)).metrics.syncErrors
          metrics.DiscoveryErrorFetch = 4) := by
  have hf : fetchDiscovery (env.servers ep) = (none, 2) := by
    simp [fetchDiscovery, tryPath, h500]
  have hsync : ∀ st : SyncState, syncPeerDiscoveryCache env st =
      ⟨st.cache, incFetchErrors st.metrics 2⟩ := by
    intro st
    simp [syncPeerDiscoveryCache, hlist, hm, syncOneLease, hep, hf]
  have hplus : ∀ st : SyncState,
      (syncPeerDiscoveryCache env st).metrics.syncErrors metrics.DiscoveryErrorFetch
        = st.metrics.syncErrors metrics.DiscoveryErrorFetch + 2 := by
    intro st
    rw [hsync st]
    exact incFetchErrors_at_fetch st.metrics 2
  refine ⟨hplus, fun c0 => ?_⟩
  have h1 : (syncPeerDiscoveryCache env ⟨c0, metrics.initMetrics⟩).metrics.syncErrors
      metrics.DiscoveryErrorFetch = 2 := by
    rw [hplus ⟨c0, metrics.initMetrics⟩]
    rfl
  refine ⟨h1, ?_⟩
  rw [hplus (syncPeerDiscoveryCache env ⟨c0, metrics.initMetrics⟩), h1]

/-- Witness for the amended Claim C3 at the metrics test's concrete
scenario. -/
theorem fetch_error_counter_accumulation_witness :
    (syncPeerDiscoveryCache envFail ⟨[], metrics.initMetrics⟩).metrics.syncErrors
        metrics.DiscoveryErrorFetch = 2 ∧
    (syncPeerDiscoveryCache envFail
        (syncPeerDiscoveryCache envFail ⟨[], metrics.initMetrics⟩)).metrics.syncErrors
        metrics.DiscoveryErrorFetch = 4 := by
  have h := fetch_error_counter_accumulation envFail
    ⟨"remote-fetch-error", "holder-fetch-error",
      [("apiserver-identity", "testserver")]⟩
    "127.0.0.1:3000" rfl rfl rfl (fun _ => rfl)
  exact h.2 []

/-- Claim C4: a lease whose server identity has no registered endpoint
makes the sync increment `hostport_resolution` by exactly 1 and create
no cache entry for that lease, while the other lease of the same sync is
still processed (its entry lands in the cache). -/
theorem hostport_resolution_error (env : PeerEnv) (st : SyncState)
    (lb lg : Lease) (ep : String) (docs : List APIGroupDiscovery)
    (hlist : env.listFails = false)
    (hm : matchingLeases env = [lb, lg])
    (hneq : lb.name ≠ lg.name)
    (hb : getEndpoint env lb.name = none)
    (hg : getEndpoint env lg.name = some ep)
    (hd : (fetchDiscovery (env.servers ep)).1 = some docs) :
    (syncPeerDiscoveryCache env st).metrics.syncErrors
        metrics.DiscoveryErrorHostPortResolution
      = st.metrics.syncErrors metrics.DiscoveryErrorHostPortResolution + 1 ∧
    lookupEntry (syncPeerDiscoveryCache env st).cache lb.name
      = lookupEntry st.cache lb.name ∧
    lookupEntry (syncPeerDiscoveryCache env st).cache lg.name
      = some (entryFor docs) := by
  have hsync : syncPeerDiscoveryCache env st =
      syncOneLease env (syncOneLease env st lb) lg := by
    simp [syncPeerDiscoveryCache, hlist, hm]
  have h1 : syncOneLease env st lb =
      ⟨st.cache, (metrics.IncPeerDiscoverySyncError st.metrics
        metrics.DiscoveryErrorHostPortResolution)⟩ := by
    simp [syncOneLease, hb]
  have hfinal : syncPeerDiscoveryCache env st =
      ⟨upsert st.cache lg.name (entryFor docs),
        incFetchErrors
          (metrics.IncPeerDiscoverySyncError st.metrics
            metrics.DiscoveryErrorHostPortResolution)
          (fetchDiscovery (env.servers ep)).2⟩ := by
    rw [hsync, h1]
    simp [syncOneLease, hg, hd]
  refine ⟨?_, ?_, ?_⟩
  · rw [hfinal]
    show (incFetchErrors _ _).syncErrors _ = _
    rw [incFetchErrors_at_ne _ _ _ (by decide)]
    exact metrics.IncPeerDiscoverySyncError_at_self st.metrics _
  · rw [hfinal]
    exact lookupEntry_upsert_ne st.cache lg.name lb.name _ hneq
  · rw [hfinal]
    exact lookupEntry_upsert_self st.cache lg.name _

/-- Witness for Claim C4 at the mixed two-lease scenario, starting from
an empty cache and zero counters. -/
theorem hostport_resolution_error_witness :
    (syncPeerDiscoveryCache envMixed ⟨[], metrics.initMetrics⟩).metrics.syncErrors
        metrics.DiscoveryErrorHostPortResolution = 1 ∧
    lookupEntry (syncPeerDiscoveryCache envMixed ⟨[], metrics.initMetrics⟩).cache
      "remote-resolution-error" = none ∧
    lookupEntry (syncPeerDiscoveryCache envMixed ⟨[], metrics.initMetrics⟩).cache
      "remote-1" = some (entryFor [testDoc]) := by
  have h := hostport_resolution_error envMixed ⟨[], metrics.initMetrics⟩
    ⟨"remote-resolution-error", "holder-error",
      [("apiserver-identity", "testserver")]⟩
    ⟨"remote-1", "holder-1", [("apiserver-identity", "testserver")]⟩
    "127.0.0.1:6443" [testDoc] rfl rfl (by decide) rfl rfl rfl
  exact ⟨by simpa using h.1, by simpa using h.2.1, by simpa using h.2.2⟩

/-- Claim C5: the discovery fetch consults only the aggregated path
`/apis` and the legacy core-group path `/api` (no other path is
requested — the result depends only on the responses at those two
paths), the legacy path is the fallback when the aggregated path does
not succeed, and a successful fetch is exactly an HTTP 200 whose body
parsed as an aggregated-discovery-typed document. -/
theorem discovery_fetch_paths :
    (∀ s₁ s₂ : String → HTTPResponse,
      s₁ "/apis" = s₂ "/apis" → s₁ "/api" = s₂ "/api" →
      fetchDiscovery s₁ = fetchDiscovery s₂) ∧
    (∀ (s : String → HTTPResponse) (docs : List APIGroupDiscovery) (n : Nat),
      fetchDiscovery s = (some docs, n) →
      tryPath s "/apis" = some docs ∨
        (tryPath s "/apis" = none ∧ tryPath s "/api" = some docs)) ∧
    (∀ (s : String → HTTPResponse) (p : String) (docs : List APIGroupDiscovery),
      tryPath s p = some docs → (s p).status = 200 ∧ (s p).body = some docs) := by
  refine ⟨?_, ?_, ?_⟩
  · intro s₁ s₂ h1 h2
    simp only [fetchDiscovery, tryPath, h1, h2]
  · intro s docs n hf
    unfold fetchDiscovery at hf
    cases h1 : tryPath s "/apis" with
    | some d =>
      rw [h1] at hf
      simp only [Prod.mk.injEq, Option.some.injEq] at hf
      exact Or.inl (congrArg some hf.1)
    | none =>
      rw [h1] at hf
      cases h2 : tryPath s "/api" with
      | some d =>
        rw [h2] at hf
        simp only [Prod.mk.injEq, Option.some.injEq] at hf
        exact Or.inr ⟨rfl, congrArg some hf.1⟩
      | none =>
        rw [h2] at hf
        simp at hf
  · intro s p docs hp
    by_cases h : (s p).status == 200
    · refine ⟨by simpa using h, ?_⟩
      simpa [tryPath, h] using hp
    · simp [tryPath, h] at hp

/-- Witness for Claim C5: the result is unchanged when the server is
replaced by one agreeing only on the two discovery paths; a
legacy-only server is served through the `/api` fallback; a concrete
successful path fetch is an HTTP 200 with the parsed document. -/
theorem discovery_fetch_paths_witness :
    fetchDiscovery (envMixed.servers "127.0.0.1:6443") =
      fetchDiscovery (fun p =>
        if p == "/apis" || p == "/api" then ⟨200, some [testDoc]⟩
        else ⟨500, none⟩) ∧
    (tryPath legacyOnlyServer "/apis" = some [testDoc] ∨
      (tryPath legacyOnlyServer "/apis" = none ∧
        tryPath legacyOnlyServer "/api" = some [testDoc])) ∧
    ((legacyOnlyServer "/api").status = 200 ∧
      (legacyOnlyServer "/api").body = some [testDoc]) :=
  ⟨discovery_fetch_paths.1 _ _ rfl rfl,
    discovery_fetch_paths.2.1 legacyOnlyServer [testDoc] 1 rfl,
    discovery_fetch_paths.2.2 legacyOnlyServer "/api" [testDoc] rfl⟩

theorem peerEntry_shape (env : PeerEnv) (l : Lease)
    (h : (peerEntry env l).isSome = true) :
    ∃ ep docs, getEndpoint env l.name = some ep ∧
      (fetchDiscovery (env.servers ep)).1 = some docs ∧
      peerEntry env l = some (entryFor docs) := by
  cases hgep : getEndpoint env l.name with
  | none =>
    unfold peerEntry at h
    simp [hgep] at h
  | some ep =>
    cases hfd : (fetchDiscovery (env.servers ep)).1 with
    | none =>
      unfold peerEntry at h
      simp [hgep, hfd] at h
    | some docs =>
      refine ⟨ep, docs, rfl, hfd, ?_⟩
      unfold peerEntry
      simp [hgep, hfd]

theorem filterDoc_nil (g : APIGroupDiscovery) : filterDoc [] g = g := by
  have hfilter : ∀ (f : APIResourceDiscovery → GroupVersionResource)
      (rs : List APIResourceDiscovery),
      (rs.filter fun r => !(([] : List GroupVersionResource).contains (f r))) = rs := by
    intro f rs
    induction rs with
    | nil => rfl
    | cons r rs ih =>
      have hc : (([] : List GroupVersionResource).contains (f r)) = false := rfl
      simp [List.filter_cons, hc, ih]
  cases g with
  | mk gname versions =>
    simp only [filterDoc]
    congr 1
    induction versions with
    | nil => rfl
    | cons v vs ih =>
      rw [List.map_cons, ih]
      congr 1
      cases v with
      | mk vname vres =>
        congr 1
        exact hfilter (fun r => ⟨gname, vname, r.resource⟩) vres

theorem refilterEntry_nil (docs : List APIGroupDiscovery) :
    refilterEntry [] (entryFor docs) = entryFor docs := by
  have hid : filterDoc ([] : List GroupVersionResource) = id := funext filterDoc_nil
  simp [refilterEntry, entryFor, hid]

theorem lookupEntry_map_keyed (f : Lease → PeerDiscoveryCacheEntry) :
    ∀ (ls : List Lease) (l : Lease), l ∈ ls → (ls.map Lease.name).Nodup →
      lookupEntry (ls.map fun x => (x.name, f x)) l.name = some (f l) := by
  intro ls
  induction ls with
  | nil => intro l hl; exact absurd hl (List.not_mem_nil l)
  | cons a ls ih =>
    intro l hl hnd
    obtain ⟨hna, hnd2⟩ :
        (∀ x ∈ ls, ¬ x.name = a.name) ∧ (ls.map Lease.name).Nodup := by
      simpa using hnd
    rcases List.mem_cons.mp hl with h | h
    · subst h
      simp [lookupEntry_cons]
    · have hne : a.name ≠ l.name := fun hc => hna l h hc.symm
      simp only [List.map_cons, lookupEntry_cons, if_neg hne]
      exact ih l h hnd2

theorem sync_foldl_cache (env : PeerEnv) :
    ∀ (ls : List Lease) (c : PeerCache) (m : metrics.MetricsState),
      (∀ l ∈ ls, (peerEntry env l).isSome = true) →
      ((ls.map Lease.name).Nodup) →
      (∀ l ∈ ls, ∀ p ∈ c, p.1 ≠ l.name) →
      (ls.foldl (syncOneLease env) ⟨c, m⟩).cache =
        c ++ ls.map fun l => (l.name, entryOf env l) := by
  intro ls
  induction ls with
  | nil => intro c m _ _ _; simp
  | cons l ls ih =>
    intro c m hsome hnodup hdisj
    obtain ⟨ep, docs, hep, hdocs, hpe⟩ :=
      peerEntry_shape env l (hsome l (List.mem_cons_self l ls))
    have hstep : syncOneLease env ⟨c, m⟩ l =
        ⟨upsert c l.name (entryFor docs),
          incFetchErrors m (fetchDiscovery (env.servers ep)).2⟩ := by
      simp [syncOneLease, hep, hdocs]
    have hentry : entryOf env l = entryFor docs := by
      simp [entryOf, hpe]
    have hup : upsert c l.name (entryFor docs) = c ++ [(l.name, entryFor docs)] :=
      upsert_of_forall_ne c l.name _
        (fun p hp => hdisj l (List.mem_cons_self l ls) p hp)
    obtain ⟨hnotmem, hnodup2⟩ :
        (∀ x ∈ ls, ¬ x.name = l.name) ∧ (ls.map Lease.name).Nodup := by
      simpa using hnodup
    have hdisj2 : ∀ x ∈ ls, ∀ p ∈ c ++ [(l.name, entryFor docs)], p.1 ≠ x.name := by
      intro x hx p hp
      rcases List.mem_append.mp hp with hh | hh
      · exact hdisj x (List.mem_cons_of_mem l hx) p hh
      · have hpl : p = (l.name, entryFor docs) := by simpa using hh
        rw [hpl]
        exact fun hcon => hnotmem x hx hcon.symm
    have hsome2 : ∀ x ∈ ls, (peerEntry env x).isSome = true :=
      fun x hx => hsome x (List.mem_cons_of_mem l hx)
    rw [List.foldl_cons, hstep, hup,
      ih (c ++ [(l.name, entryFor docs)])
        (incFetchErrors m (fetchDiscovery (env.servers ep)).2)
        hsome2 hnodup2 hdisj2]
    simp [hentry]

/-- Claim C1: at steady state (every matching lease's endpoint resolves
and its discovery document fetches successfully), one full sync starting
from an empty cache leaves the filtered peer discovery cache (with an
empty local exclusion set, as in the test) with exactly one entry per
matching lease name, each entry holding exactly the GVR set advertised
by that peer's discovery document. -/
theorem steady_state_cache (env : PeerEnv)
    (hlist : env.listFails = false)
    (hnodup : ((matchingLeases env).map Lease.name).Nodup)
    (hsteady : ∀ l ∈ matchingLeases env, (peerEntry env l).isSome = true) :
    (GetFilteredPeerDiscoveryCache []
        (syncPeerDiscoveryCache env ⟨[], metrics.initMetrics⟩).cache).map Prod.fst
      = (matchingLeases env).map Lease.name ∧
    ∀ l ∈ matchingLeases env,
      lookupEntry (GetFilteredPeerDiscoveryCache []
          (syncPeerDiscoveryCache env ⟨[], metrics.initMetrics⟩).cache) l.name
        = peerEntry env l := by
  have hcache : (syncPeerDiscoveryCache env ⟨[], metrics.initMetrics⟩).cache =
      (matchingLeases env).map fun l => (l.name, entryOf env l) := by
    have hs : syncPeerDiscoveryCache env ⟨[], metrics.initMetrics⟩ =
        (matchingLeases env).foldl (syncOneLease env) ⟨[], metrics.initMetrics⟩ := by
      simp [syncPeerDiscoveryCache, hlist]
    rw [hs]
    simpa using sync_foldl_cache env (matchingLeases env) [] metrics.initMetrics
      hsteady hnodup (by simp)
  constructor
  · rw [hcache]
    simp [GetFilteredPeerDiscoveryCache, Function.comp]
  · intro l hl
    rw [lookupEntry_map_refilter, hcache,
      lookupEntry_map_keyed (entryOf env) (matchingLeases env) l hl hnodup]
    obtain ⟨ep, docs, _, _, hpe⟩ := peerEntry_shape env l (hsteady l hl)
    have hentry : entryOf env l = entryFor docs := by simp [entryOf, hpe]
    rw [hentry, hpe]
    simp [refilterEntry_nil]

/-- Witness for Claim C1 at the single-lease steady-state scenario. -/
theorem steady_state_cache_witness :
    (GetFilteredPeerDiscoveryCache []
        (syncPeerDiscoveryCache envSteady ⟨[], metrics.initMetrics⟩).cache).map Prod.fst
      = ["remote-1"] ∧
    lookupEntry (GetFilteredPeerDiscoveryCache []
        (syncPeerDiscoveryCache envSteady ⟨[], metrics.initMetrics⟩).cache) "remote-1"
      = some (entryFor [testDoc]) := by
  have h := steady_state_cache envSteady rfl (by decide) (by decide)
  refine ⟨h.1.trans rfl, ?_⟩
  have h2 := h.2 ⟨"remote-1", "holder-1", [("apiserver-identity", "testserver")]⟩
    (by decide)
  exact h2.trans rfl

theorem syncOneLease_cache_cases (env : PeerEnv) (st : SyncState) (l : Lease) :
    (syncOneLease env st l).cache = st.cache ∨
    ∃ docs, (syncOneLease env st l).cache = upsert st.cache l.name (entryFor docs) := by
  unfold syncOneLease
  cases getEndpoint env l.name with
  | none => exact Or.inl rfl
  | some ep =>
    cases hfd : (fetchDiscovery (env.servers ep)).1 with
    | none => exact Or.inl (by simp [hfd])
    | some docs => exact Or.inr ⟨docs, by simp [hfd]⟩

theorem sync_foldl_consistent (env : PeerEnv) :
    ∀ (ls : List Lease) (st : SyncState),
      (∀ p ∈ st.cache, entryConsistent p.2) →
      ∀ p ∈ (ls.foldl (syncOneLease env) st).cache, entryConsistent p.2 := by
  intro ls
  induction ls with
  | nil => intro st h; simpa using h
  | cons l ls ih =>
    intro st h
    rw [List.foldl_cons]
    apply ih
    rcases syncOneLease_cache_cases env st l with hc | ⟨docs, hc⟩
    · rw [hc]; exact h
    · rw [hc]
      intro p hp
      rcases mem_upsert st.cache l.name (entryFor docs) p hp with hm | hm
      · exact h p hm
      · rw [hm]; rfl

/-- Claim C8: every entry observable through the cache keeps `GVRs`
equal to the flattened, de-duplicated projection of `GroupDiscovery`:
the invariant is preserved by a full sync and by the delete handler, and
every entry of any map returned by `GetFilteredPeerDiscoveryCache` is
fully populated — consistent, with a duplicate-free GVR set. -/
theorem cache_entries_consistent (env : PeerEnv) (st : SyncState)
    (excl : List GroupVersionResource) (name : String)
    (hst : ∀ p ∈ st.cache, entryConsistent p.2) :
    (∀ p ∈ (syncPeerDiscoveryCache env st).cache, entryConsistent p.2) ∧
    (∀ p ∈ (onLeaseDelete st name).cache, entryConsistent p.2) ∧
    (∀ p ∈ GetFilteredPeerDiscoveryCache excl st.cache,
      entryConsistent p.2 ∧ p.2.GVRs.Nodup) := by
  refine ⟨?_, ?_, ?_⟩
  · unfold syncPeerDiscoveryCache
    by_cases hl : env.listFails
    · simpa [hl] using hst
    · simp only [hl, if_neg, Bool.false_eq_true, not_false_iff]
      exact sync_foldl_consistent env (matchingLeases env) st hst
  · intro p hp
    exact hst p (List.mem_of_mem_filter hp)
  · intro p hp
    obtain ⟨q, _, rfl⟩ := List.mem_map.mp hp
    exact ⟨rfl, by simpa [refilterEntry, flattenGVRs] using List.nodup_dedup _⟩

/-- Witness for Claim C8: the invariant instantiated at a one-entry
cache holding the test document. -/
theorem cache_entries_consistent_witness :
    entryConsistent (refilterEntry [] (entryFor [testDoc])) ∧
    (refilterEntry [] (entryFor [testDoc])).GVRs.Nodup := by
  have h := cache_entries_consistent envSteady
    ⟨[("remote-1", entryFor [testDoc])], metrics.initMetrics⟩ [] "remote-1"
    (by intro p hp; simp at hp; rw [hp]; rfl)
  exact h.2.2 ("remote-1", refilterEntry [] (entryFor [testDoc]))
    (by simp [GetFilteredPeerDiscoveryCache])

end peerproxy
